import Mathlib

/-!
Verification of the ydls download service against its specification.

The development shallowly embeds the Go sources: the youtubedl metadata
package (codec normalization, info parsing, the extraction-tool process
construction, directory scanning) and the feed synthesis of rss.go.  Pure
functions become Lean functions; process and filesystem effects become
functions of explicit inputs (stderr line lists, filesystem models).
Strings are Lean strings over their character lists; the ASCII fragment of
the Go standard library case mapping is modelled, which covers every string
the code and the claims manipulate.  Bitrates (Go float64) are modelled as
rationals: no claim depends on floating point rounding.
-/

set_option maxHeartbeats 1000000

namespace youtubedl

/-- Uppercase and lowercase ASCII letter pairs: the alphabet over which the
Go standard library lowers codec strings in this code base. -/
def asciiCasePairs : List (Char × Char) :=
  [('A','a'), ('B','b'), ('C','c'), ('D','d'), ('E','e'), ('F','f'), ('G','g'),
   ('H','h'), ('I','i'), ('J','j'), ('K','k'), ('L','l'), ('M','m'), ('N','n'),
   ('O','o'), ('P','p'), ('Q','q'), ('R','r'), ('S','s'), ('T','t'), ('U','u'),
   ('V','v'), ('W','w'), ('X','x'), ('Y','y'), ('Z','z')]

/-- One character of Go strings.ToLower, restricted to ASCII (Unicode case
mapping is outside the fragment the sources exercise). -/
def goLowerChar (ch : Char) : Char :=
  match asciiCasePairs.find? (fun q => q.1 == ch) with
  | some q => q.2
  | none => ch

/-- Go strings.ToLower (ASCII fragment), applied character by character. -/
def goToLower (s : String) : String :=
  String.mk (s.data.map goLowerChar)

/-- Go strings.Trim with the one-character cutset of a space: drop leading and
trailing space characters (and nothing else) from a character list. -/
def trimSpaceChars (l : List Char) : List Char :=
  (((l.dropWhile (fun ch => ch == ' ')).reverse.dropWhile (fun ch => ch == ' ')).reverse)

/-- Go strings.Trim (c, " ") on strings. -/
def trimSpaces (s : String) : String := String.mk (trimSpaceChars s.data)

/-- First component of Go strings.SplitN (c, ".", 2): everything before the
first dot, or the whole string when no dot occurs. -/
def takeBeforeDot (s : String) : String :=
  String.mk (s.data.takeWhile (fun ch => !(ch == '.')))

/-- The codecNameNormalizeMap literal inside normalizeCodecName, as an
association list. -/
def codecNameNormalizeMap : List (String × String) :=
  [( "none", ""), ( "avc1", "h264"), ( "mp4a", "aac"), ( "mp4v", "h264")]

/-- normalizeCodecName from the youtubedl package: trim surrounding spaces,
lower-case, cut the vendor suffix after the first dot, then replace the token
by its canonical name when the alias map knows it. -/
def normalizeCodecName (c : String) : String :=
  let c1 := trimSpaces c
  let c2 := goToLower c1
  let c3 := takeBeforeDot c2
  match codecNameNormalizeMap.find? (fun q => q.1 == c3) with
  | some q => q.2
  | none => c3

/-- Whitespace in the sense of claim C3: the claim says surrounding WHITESPACE
is stripped, which includes tabs and line breaks, not only spaces. -/
def isWhitespaceChar (ch : Char) : Bool :=
  ch == ' ' || ch == '\t' || ch == '\n' || ch == '\r'

/-- Codec normalization exactly as claim C3 words it (a reference definition
written from the claim text, to be compared with normalizeCodecName, which is
written from the source): strip surrounding whitespace, lower-case, truncate
at the first dot separator, map an AVC-family tag to h264 and an AAC-family
tag to aac, map the literal token none to the empty string, and return any
other token unchanged. -/
def normalizeCodecNameClaimed (c : String) : String :=
  let t0 := (((c.data.dropWhile isWhitespaceChar).reverse.dropWhile isWhitespaceChar).reverse)
  let t1 := t0.map goLowerChar
  let t2 := t1.takeWhile (fun ch => !(ch == '.'))
  let t := String.mk t2
  if t == "avc1" || t == "mp4v" then "h264"
  else if t == "mp4a" then "aac"
  else if t == "none" then ""
  else t

/-- Codec normalization as the claim reads after replacing whitespace by the
space character (a reference definition written from the amended claim text):
strip surrounding space characters, lower-case, truncate at the first dot,
map the vendor aliases, map none to the empty string, and return any other
token unchanged. -/
def normalizeCodecNameSpacesClaim (c : String) : String :=
  let t0 := (((c.data.dropWhile (fun ch => ch == ' ')).reverse.dropWhile (fun ch => ch == ' ')).reverse)
  let t1 := t0.map goLowerChar
  let t2 := t1.takeWhile (fun ch => !(ch == '.'))
  let t := String.mk t2
  if t == "avc1" || t == "mp4v" then "h264"
  else if t == "mp4a" then "aac"
  else if t == "none" then ""
  else t

/-- The token normalizeCodecName feeds to the alias lookup: the input trimmed
of surrounding spaces, lowered, and cut at the first dot (a derived view of
the source steps, used by the proofs). -/
def normCore (c : String) : String :=
  String.mk (((trimSpaceChars c.data).map goLowerChar).takeWhile (fun ch => !(ch == '.')))

/-- codecFromExt from the youtubedl package: guess codecs from the container
extension with a fixed table, after lowering the extension. -/
def codecFromExt (ext : String) : String × String :=
  if goToLower ext == "mp3" then ( "mp3", "")
  else if goToLower ext == "mp4" then ( "aac", "h264")
  else if goToLower ext == "flv" then ( "aac", "h264")
  else ( "", "")

/-- Format from the youtubedl package: one downloadable variant reported by the
extraction tool, with the derived normalized fields. -/
structure Format where
  FormatID : String := ""
  Protocol : String := ""
  Ext : String := ""
  ACodec : String := ""
  VCodec : String := ""
  TBR : Rat := 0
  ABR : Rat := 0
  VBR : Rat := 0
  NormBR : Rat := 0
  NormACodec : String := ""
  NormVCodec : String := ""
deriving DecidableEq, Repr

/-- Body of the per-format loop of parseInfo: derive the normalized codec
names, fall back to the extension table when the raw codec field is empty, and
derive the normalized bitrate. -/
def normalizeFormat (f : Format) : Format :=
  let f1 := { f with NormACodec := normalizeCodecName f.ACodec,
                     NormVCodec := normalizeCodecName f.VCodec }
  let f2 := if f.ACodec = "" then { f1 with NormACodec := (codecFromExt f.Ext).1 } else f1
  let f3 := if f.VCodec = "" then { f2 with NormVCodec := (codecFromExt f.Ext).2 } else f2
  if f.TBR ≠ 0 then { f3 with NormBR := f.TBR } else { f3 with NormBR := f.ABR + f.VBR }

/-- Info from the youtubedl package.  The fields through rawJSON are declared
in the source under src; the trailing fields (ID, the type tag, WebpageURL,
UploadDate, Entries) are the playlist fields of the same structure that
rss.go reads, whose declaring file is not under src, modelled with the types
their uses demand.  TypeTag renders the source field named Type, which is a
reserved word here. -/
structure Info where
  Artist : String := ""
  Uploader : String := ""
  Creator : String := ""
  Title : String := ""
  Description : String := ""
  Duration : Rat := 0
  Thumbnail : String := ""
  Formats : List Format := []
  ThumbnailBytes : String := ""
  rawJSON : String := ""
  ID : String := ""
  TypeTag : String := ""
  WebpageURL : String := ""
  UploadDate : String := ""
  Entries : List Info := []

/-- Error taxonomy of the embedded youtubedl package operations. -/
inductive Err where
  | parseErr : Err
  | extractionErr (msg : String) : Err
  | waitErr : Err
  | readDirErr : Err
  | openErr : Err
  | thumbErr : Err
  | noInfoJSON : Err
deriving DecidableEq, Repr

/-- parseInfo from the youtubedl package.  Reading the bytes and decoding the
JSON shape (encoding json Unmarshal, a deterministic standard-library
function) is abstracted as the decode argument; parseInfo retains the input
bytes verbatim as rawJSON and recomputes the derived fields of every format. -/
def parseInfo (decode : String → Option Info) (bytes : String) : Except Err Info :=
  match decode bytes with
  | none => Except.error Err.parseErr
  | some i0 =>
      Except.ok { i0 with rawJSON := bytes, Formats := i0.Formats.map normalizeFormat }

/-- Filesystem model for NewFromPath: a directory listing map and a file
content map, each returning none where the corresponding Go call errors. -/
structure FSModel where
  readDir : String → Option (List String)
  readFile : String → Option String

/-- Go path.Ext: the suffix of the final path element from its last dot, or
the empty string when the final element contains no dot. -/
def goPathExt (p : String) : String :=
  let lastElemRev := p.data.reverse.takeWhile (fun ch => !(ch == '/'))
  let afterDotRev := lastElemRev.takeWhile (fun ch => !(ch == '.'))
  if afterDotRev.length == lastElemRev.length then ""
  else String.mk ('.' :: afterDotRev.reverse)

/-- Go path.Join for the two-argument calls NewFromPath makes (without the
final Clean step, on which no claim depends). -/
def pathJoin (a b : String) : String :=
  if a == "" then b else a ++ "/" ++ b

/-- Loop body of the directory scan in NewFromPath: remember the located info
JSON path in the first component and the located thumbnail path in the
second. -/
def scanDirStep (dir : String) (acc : String × String) (name : String) : String × String :=
  let ext := goPathExt name
  if ext == ".json" then (pathJoin dir name, acc.2)
  else if ext == ".png" || ext == ".jpg" || ext == ".jpeg" then (acc.1, pathJoin dir name)
  else acc

/-- NewFromPath from the youtubedl package: list the directory, locate the
info JSON and optional thumbnail by extension, guard on the DIRECTORY path
being empty (the guard of the source tests infoPath, not infoJSONPath), open
and parse the info JSON, then attach the thumbnail bytes when a thumbnail was
located. -/
def NewFromPath (fs : FSModel) (decode : String → Option Info) (infoPath : String) :
    Except Err Info :=
  match fs.readDir infoPath with
  | none => Except.error Err.readDirErr
  | some names =>
    let located := names.foldl (scanDirStep infoPath) ( "", "")
    let infoJSONPath := located.1
    let thumbnailPath := located.2
    if infoPath = "" then Except.error Err.noInfoJSON
    else
      match fs.readFile infoJSONPath with
      | none => Except.error Err.openErr
      | some contents =>
        match parseInfo decode contents with
        | Except.error e => Except.error e
        | Except.ok i =>
          if thumbnailPath ≠ "" then
            match fs.readFile thumbnailPath with
            | none => Except.error Err.thumbErr
            | some tb => Except.ok { i with ThumbnailBytes := tb }
          else Except.ok i

/-- Character-list test that pre is a leading segment of l (Go
strings.HasPrefix on the underlying bytes, which are characters here). -/
def goHasPrefixChars : List Char → List Char → Bool
  | [], _ => true
  | _ :: _, [] => false
  | p :: ps, c :: cs => p == c && goHasPrefixChars ps cs

/-- The recognized diagnostic line marker of NewFromURL. -/
def errorLineMark : String := "ERROR: "

/-- The stderr line scan of NewFromURL: on the first line carrying the
recognized marker, surface the rest of that line (the marker itself is cut
off by the slice line drop of the source) as the extraction error message. -/
def scanStderr : List String → Option String
  | [] => none
  | line :: rest =>
    if goHasPrefixChars errorLineMark.data line.data then
      some (String.mk (line.data.drop errorLineMark.data.length))
    else scanStderr rest

/-- One external process invocation: program, argument list, and the bytes the
caller writes to its input stream. -/
structure CmdInvocation where
  program : String
  args : List String
  stdinBytes : String
deriving DecidableEq, Repr

/-- The extraction-tool invocation NewFromURL builds: the argument list is the
literal flag list of the source, and the target URL is written to the
process input stream followed by a newline (fmt.Fprintln), never placed in
the argument list. -/
def newFromURLInvocation (url : String) : CmdInvocation :=
  { program := "youtube-dl",
    args := [ "--no-call-home", "--no-cache-dir", "--skip-download",
              "--write-info-json", "--write-thumbnail", "--batch-file", "-"],
    stdinBytes := url ++ "\n" }

/-- Outcome of NewFromURL after the process has started, as a function of the
observable process behaviour: the stderr lines, and whether the final wait
succeeds.  The scan of the diagnostic lines runs first and short-circuits
(the source returns before cmd.Wait); only when no marked line occurred does
the wait result and then the scratch-directory parse decide the outcome. -/
def newFromURLOutcome (fs : FSModel) (decode : String → Option Info)
    (tempPath : String) (stderrLines : List String) (waitOk : Bool) :
    Except Err Info :=
  match scanStderr stderrLines with
  | some msg => Except.error (Err.extractionErr msg)
  | none =>
    if waitOk then NewFromPath fs decode tempPath
    else Except.error Err.waitErr

end youtubedl

namespace ydls

open youtubedl

/-- URL values, modelling the Go standard library net url URL for the
components this code base touches. -/
structure URL where
  scheme : String := ""
  host : String := ""
  path : String := ""
  query : String := ""
  fragment : String := ""
deriving DecidableEq, Repr

/-- Merge of a relative path reference with a base path (RFC 3986 section
5.3): drop the base path after its last slash and append the reference. -/
def mergeURLPath (basePath refPath : String) : String :=
  String.mk ((basePath.data.reverse.dropWhile (fun ch => !(ch == '/'))).reverse) ++ refPath

/-- Go net url ResolveReference for the reference shapes rss.go builds
(path-only and fragment-only relative references), without dot-segment
removal, which those references never need. -/
def resolveReference (base ref : URL) : URL :=
  if ref.scheme ≠ "" then ref
  else if ref.host ≠ "" then { ref with scheme := base.scheme }
  else if ref.path = "" then
    if ref.query = "" then { base with fragment := ref.fragment }
    else { base with query := ref.query, fragment := ref.fragment }
  else if goHasPrefixChars [ '/'] ref.path.data then
    { base with path := ref.path, query := ref.query, fragment := ref.fragment }
  else
    { base with path := mergeURLPath base.path ref.path,
                query := ref.query, fragment := ref.fragment }

/-- Hexadecimal digits for percent escaping. -/
def hexDigits : List Char :=
  [ '0', '1', '2', '3', '4', '5', '6', '7', '8', '9', 'A', 'B', 'C', 'D', 'E', 'F']

/-- Characters Go net url QueryEscape leaves unescaped. -/
def isUnescapedQueryChar (ch : Char) : Bool :=
  decide (('a' ≤ ch ∧ ch ≤ 'z') ∨ ('A' ≤ ch ∧ ch ≤ 'Z') ∨ ('0' ≤ ch ∧ ch ≤ '9') ∨
    ch = '-' ∨ ch = '_' ∨ ch = '.' ∨ ch = '~')

/-- Percent escaping of one character in a query component: a space becomes a
plus sign, unreserved characters stay, anything else becomes a percent pair
(ASCII fragment of Go net url QueryEscape). -/
def escapeQueryChar (ch : Char) : List Char :=
  if ch == ' ' then [ '+']
  else if isUnescapedQueryChar ch then [ ch]
  else [ '%', hexDigits.getD (ch.toNat / 16 % 16) '0', hexDigits.getD (ch.toNat % 16) '0']

/-- Go net url QueryEscape (ASCII fragment). -/
def queryEscape (s : String) : String :=
  String.mk (s.data.map escapeQueryChar).flatten

/-- Textual form of a URL value (Go net url URL String) for the component
combinations this code base produces. -/
def renderURL (u : URL) : String :=
  (if u.scheme ≠ "" then u.scheme ++ "://" ++ u.host
   else if u.host ≠ "" then "//" ++ u.host else "")
  ++ u.path
  ++ (if u.query ≠ "" then "?" ++ u.query else "")
  ++ (if u.fragment ≠ "" then "#" ++ u.fragment else "")

/-- Modelled from the spec: the feed document types of the internal rss
package, whose declaring file is not under src.  Spec section 6 lists the
channel element (title, description, link, optional image) and the item
elements (identifier, publish date, author, image, link, title, description,
one enclosure with URL and MIME type).  TypeAttr renders the source field
named Type of the enclosure element. -/
structure RSSEnclosure where
  URL : String := ""
  TypeAttr : String := ""
deriving DecidableEq, Repr

/-- Modelled from the spec: the channel image element of the internal rss
package (URL, title, link), not under src. -/
structure RSSImage where
  URL : String := ""
  Title : String := ""
  Link : String := ""
deriving DecidableEq, Repr

/-- Modelled from the spec: one feed item of the internal rss package, not
under src. -/
structure RSSItem where
  GUID : String := ""
  PubDate : String := ""
  ItunesAuthor : String := ""
  ItunesImage : String := ""
  Link : String := ""
  Title : String := ""
  Description : String := ""
  Enclosure : RSSEnclosure := {}
deriving DecidableEq, Repr

/-- Modelled from the spec: the feed channel of the internal rss package, not
under src. -/
structure RSSChannel where
  Title : String := ""
  Description : String := ""
  Link : String := ""
  Image : Option RSSImage := none
  ItunesImage : String := ""
  Items : List RSSItem := []
deriving DecidableEq, Repr

/-- Modelled from the spec: the feed document root of the internal rss
package, not under src: a fixed top-level version and namespace attribute
and one channel. -/
structure RSS where
  Version : String := ""
  XMLNSItunes : String := ""
  Channel : RSSChannel := {}
deriving DecidableEq, Repr

/-- Modelled from the spec: the itunes namespace constant of the internal rss
package, not under src (its value appears in the test fixtures of
ydls_test.go). -/
def xmlnsItunesValue : String := "http://www.itunes.com/dtds/podcast-1.0.dtd"

/-- Modelled from the spec: the target format summary (container name,
container extension, MIME type) that rss.go reads from the enclosure
download options; the declaring config types are not under src. -/
structure TargetFormatSummary where
  Name : String := ""
  Ext : String := ""
  MIMEType : String := ""
deriving DecidableEq, Repr

/-- Modelled from the spec: the enclosure download options carried by a
format profile (internal/ydls, not under src), restricted to the fields
rss.go reads and writes: the target format summary, the media URL, and the
base URL. -/
structure EnclosureDO where
  Format : TargetFormatSummary := {}
  MediaRawURL : String := ""
  BaseURL : Option URL := none
deriving DecidableEq, Repr

/-- Modelled from the spec: the format profile fields rss.go reads
(internal/ydls config, not under src). -/
structure FormatProfile where
  Name : String := ""
  EnclosureDownloadOptions : EnclosureDO := {}
deriving DecidableEq, Repr

/-- Modelled from the spec: the download request fields rss.go reads
(internal/ydls, not under src): the base URL for feed link construction and
the chosen format profile. -/
structure DownloadOptions where
  BaseURL : Option URL := none
  Format : FormatProfile := {}
deriving DecidableEq, Repr

/-- Modelled from the spec: firstNonEmpty (internal/ydls/ydls.go, not under
src): the first non-empty value among a prioritized list of candidate
fields. -/
def firstNonEmpty (xs : List String) : String :=
  ((xs.find? (fun s => !(s == ""))).getD "")

/-- Modelled from the spec: the metadata view rss.go takes of an Info value
(title, artist, comment), produced by metadataFromYoutubeDLInfo of
internal/ydls/ydls.go, not under src.  Spec section 3: uploader, artist and
creator strings and a description comment; section 4.4: prioritized
fallback among candidate fields. -/
structure Metadata where
  Artist : String := ""
  Title : String := ""
  Comment : String := ""
deriving DecidableEq, Repr

/-- Modelled from the spec: metadataFromYoutubeDLInfo
(internal/ydls/ydls.go, not under src). -/
def metadataFromYoutubeDLInfo (i : Info) : Metadata :=
  { Artist := firstNonEmpty [ i.Artist, i.Uploader, i.Creator],
    Title := i.Title,
    Comment := i.Description }

/-- Numeric value of an ASCII digit, or none. -/
def digitVal (ch : Char) : Option Nat :=
  if ch.isDigit then some (ch.toNat - 48) else none

/-- Gregorian leap year rule (Go time package). -/
def isLeapYear (y : Nat) : Bool :=
  y % 4 == 0 && (!(y % 100 == 0) || y % 400 == 0)

/-- Day count of a Gregorian month (Go time package). -/
def daysInMonth (y m : Nat) : Nat :=
  if m = 2 then (if isLeapYear y then 29 else 28)
  else if m = 4 ∨ m = 6 ∨ m = 9 ∨ m = 11 then 30
  else 31

/-- Go time.Parse with layout 20060102: exactly eight ASCII digits giving
year, month and day, with month and day range-checked against the Gregorian
calendar; anything else is a parse error (none). -/
def parseYMD8 (s : String) : Option (Nat × Nat × Nat) :=
  match s.data.mapM digitVal with
  | some [a, b, c, d, e, f, g, h] =>
    let year := ((a * 10 + b) * 10 + c) * 10 + d
    let mon := e * 10 + f
    let day := g * 10 + h
    if 1 ≤ mon ∧ mon ≤ 12 ∧ 1 ≤ day ∧ day ≤ daysInMonth year mon then
      some (year, mon, day)
    else none
  | _ => none

/-- Days of the year before the first of month m of year y. -/
def daysBeforeMonth (y m : Nat) : Nat :=
  (List.range (m - 1)).foldl (fun acc k => acc + daysInMonth y (k + 1)) 0

/-- Day number of a proleptic Gregorian date, shifted by 400 years to stay in
the naturals (the weekday pattern repeats every 400 years). -/
def rataDie (y m d : Nat) : Nat :=
  let y4 := y + 400
  365 * (y4 - 1) + (y4 - 1) / 4 - (y4 - 1) / 100 + (y4 - 1) / 400
    + daysBeforeMonth y4 m + d

/-- Weekday of a Gregorian date, zero for Sunday (Go time package). -/
def weekdayIndex (y m d : Nat) : Nat := rataDie y m d % 7

/-- Weekday names of the fixed timestamp format. -/
def weekdayNames : List String :=
  [ "Sun", "Mon", "Tue", "Wed", "Thu", "Fri", "Sat"]

/-- Month names of the fixed timestamp format. -/
def monthNames : List String :=
  [ "Jan", "Feb", "Mar", "Apr", "May", "Jun",
    "Jul", "Aug", "Sep", "Oct", "Nov", "Dec"]

/-- Two-digit zero-padded decimal. -/
def natPad2 (n : Nat) : String :=
  if n < 10 then "0" ++ toString n else toString n

/-- Four-digit zero-padded decimal. -/
def natPad4 (n : Nat) : String :=
  if n < 10 then "000" ++ toString n
  else if n < 100 then "00" ++ toString n
  else if n < 1000 then "0" ++ toString n
  else toString n

/-- Rendering of a date at midnight UTC in the Go time.RFC1123Z layout, the
fixed textual timestamp format rss.go uses for publish dates. -/
def formatRFC1123Z (y m d : Nat) : String :=
  weekdayNames.getD (weekdayIndex y m d) "" ++ ", " ++ natPad2 d ++ " "
    ++ monthNames.getD (m - 1) "" ++ " " ++ natPad4 y ++ " 00:00:00 +0000"

/-- The publish date computation of the rss.go item loop: empty unless the
upload date token is non-empty and parses as an eight-digit date, in which
case the date is rendered in the fixed timestamp format. -/
def pubDateForToken (tok : String) : String :=
  if tok ≠ "" then
    match parseYMD8 tok with
    | some (y, m, d) => formatRFC1123Z y m d
    | none => ""
  else ""

/-- Modelled from the spec: the URL method of DownloadOptions
(internal/ydls/ydls.go, not under src): the enclosure link is the entry
base URL carrying the format name and the media URL as query parameters
(spec section 4.4, and the expected URL fixtures of ydls_test.go). -/
def downloadOptionsURL (o : EnclosureDO) : URL :=
  let b := o.BaseURL.getD {}
  { b with query := "format=" ++ o.Format.Name ++ "&url=" ++ queryEscape o.MediaRawURL }

/-- The base URL rss.go resolves against: the request base URL, or a fresh
empty URL when the request carries none. -/
def baseURLOf (options : DownloadOptions) : URL :=
  options.BaseURL.getD {}

/-- The feed-level URL of rss.go: the base URL extended by the enclosure
format name and the page URL of the playlist. -/
def feedURLOf (options : DownloadOptions) (info : Info) : URL :=
  resolveReference (baseURLOf options)
    { path := options.Format.EnclosureDownloadOptions.Format.Name ++ "/" ++ info.WebpageURL }

/-- Body of the entry loop of RSSFromYDLSInfo: the item built for one child
entry — identifier from the feed URL with the entry id as fragment, publish
date from the upload date token, metadata fields, and the enclosure whose
URL is the media link of the per-entry download options. -/
def mkFeedItem (enclosureDO : EnclosureDO) (baseURL feedURL : URL) (entry : Info) :
    RSSItem :=
  let guid := renderURL (resolveReference feedURL { fragment := entry.ID })
  let entryDO : EnclosureDO :=
    { enclosureDO with
      MediaRawURL := entry.WebpageURL,
      BaseURL := some (resolveReference baseURL { path := "media." ++ enclosureDO.Format.Ext }) }
  let entryMetadata := metadataFromYoutubeDLInfo entry
  { GUID := guid,
    PubDate := pubDateForToken entry.UploadDate,
    ItunesAuthor := entryMetadata.Artist,
    ItunesImage := entry.Thumbnail,
    Link := entry.WebpageURL,
    Title := entryMetadata.Title,
    Description := entryMetadata.Comment,
    Enclosure := { URL := renderURL (downloadOptionsURL entryDO),
                   TypeAttr := enclosureDO.Format.MIMEType } }

/-- The entry loop of RSSFromYDLSInfo: children whose type tag is playlist or
multi video are skipped (nested playlists are not flattened), every other
child yields exactly one item, in order. -/
def itemsForEntries (enclosureDO : EnclosureDO) (baseURL feedURL : URL) :
    List Info → List RSSItem
  | [] => []
  | entry :: rest =>
    if entry.TypeTag == "playlist" || entry.TypeTag == "multi_video" then
      itemsForEntries enclosureDO baseURL feedURL rest
    else
      mkFeedItem enclosureDO baseURL feedURL entry
        :: itemsForEntries enclosureDO baseURL feedURL rest

/-- RSSFromYDLSInfo from rss.go: build the channel with prioritized title
fallback and optional image, then one item per eligible child entry. -/
def RSSFromYDLSInfo (options : DownloadOptions) (info : Info) (linkIconRawURL : String) :
    RSS :=
  let enclosureDO := options.Format.EnclosureDownloadOptions
  let metadata := metadataFromYoutubeDLInfo info
  let baseURL := baseURLOf options
  let feedURL := feedURLOf options info
  let channel0 : RSSChannel :=
    { Title := firstNonEmpty [ metadata.Title, metadata.Artist],
      Description := metadata.Comment,
      Link := info.WebpageURL }
  let thumbnail := firstNonEmpty [ info.Thumbnail, linkIconRawURL]
  let channel1 :=
    if thumbnail ≠ "" then
      { channel0 with
        Image := some { URL := thumbnail, Title := info.Title, Link := info.WebpageURL },
        ItunesImage := thumbnail }
    else channel0
  { Version := "2.0",
    XMLNSItunes := xmlnsItunesValue,
    Channel := { channel1 with
                 Items := itemsForEntries enclosureDO baseURL feedURL info.Entries } }

/-- Modelled from the spec: the playlist item-count cap of the download
orchestrator (internal/ydls/ydls.go, not under src).  Spec section 4.4: emit
one feed entry per eligible child, up to itemLimit if positive; the cap
applies to the emitted items, so a nested-playlist child is excluded
regardless of the limit. -/
def buildFeed (options : DownloadOptions) (info : Info) (linkIconRawURL : String)
    (itemLimit : Int) : RSS :=
  let r := RSSFromYDLSInfo options info linkIconRawURL
  if 0 < itemLimit then
    { r with Channel := { r.Channel with Items := r.Channel.Items.take itemLimit.toNat } }
  else r

/-- Modelled from the spec: the requested media kind of the negotiator
(internal/ydls/ydls.go, not under src), audio or video. -/
inductive MediaType where
  | audioKind : MediaType
  | videoKind : MediaType
deriving DecidableEq, Repr

/-- The normalized codec of a candidate for the requested media kind. -/
def normCodecFor (f : Format) (mt : MediaType) : String :=
  match mt with
  | MediaType.audioKind => f.NormACodec
  | MediaType.videoKind => f.NormVCodec

/-- Whether a candidate matches one preferred codec: its normalized codec for
the requested kind equals the preferred codec and is non-empty (an empty
normalized codec signals the kind is absent). -/
def codecMatches (f : Format) (mt : MediaType) (c : String) : Bool :=
  normCodecFor f mt == c && !(normCodecFor f mt == "")

/-- Modelled from the spec: the preference-major scan of the negotiator
(findYDLFormat of internal/ydls/ydls.go, not under src).  Spec section 4.2:
iterate preference order outer and candidate order inner, returning the
first candidate matching the current preferred codec. -/
def findPreferred (formats : List Format) (mt : MediaType) :
    List String → Option Format
  | [] => none
  | c :: cs =>
    match formats.find? (fun f => codecMatches f mt c) with
    | some f => some f
    | none => findPreferred formats mt cs

/-- Modelled from the spec: findYDLFormat (internal/ydls/ydls.go, not under
src).  Spec section 4.2: with a non-empty ordered preference list, run the
preference-major scan; with an empty list, return the first candidate whose
normalized codec for the requested kind is non-empty. -/
def findYDLFormat (formats : List Format) (mt : MediaType) (codecs : List String) :
    Option Format :=
  match codecs with
  | [] => formats.find? (fun f => !(normCodecFor f mt == ""))
  | _ :: _ => findPreferred formats mt codecs

/-- The five-candidate catalog of TestFindYDLFormat in ydls_test.go, as the
extraction tool would report it (raw fields only). -/
def ydlTestFormats : List Format :=
  [ { FormatID := "1", Protocol := "http", ACodec := "mp3", VCodec := "h264", TBR := 1 },
    { FormatID := "2", Protocol := "http", ACodec := "", VCodec := "h264", TBR := 2 },
    { FormatID := "3", Protocol := "http", ACodec := "aac", VCodec := "", TBR := 3 },
    { FormatID := "4", Protocol := "http", ACodec := "vorbis", VCodec := "vp8", TBR := 4 },
    { FormatID := "5", Protocol := "http", ACodec := "opus", VCodec := "vp9", TBR := 5 }]

/-- The same catalog with the derived fields computed, as the negotiator
consumes it. -/
def ydlTestCatalog : List Format := ydlTestFormats.map normalizeFormat

end ydls

open youtubedl ydls

/-- A minimal deterministic JSON decode function for concrete runs: it accepts
exactly the byte string x as an empty metadata document. -/
def decodeFixture : String → Option Info :=
  fun s => if s = "x" then some { Entries := [] } else none

/-- The Info value parseInfo produces from the byte string x under
decodeFixture. -/
def infoFixture : Info := { rawJSON := "x", Entries := [] }

/-- A filesystem model on which every operation fails. -/
def fsEmptyFixture : FSModel :=
  { readDir := fun _ => none, readFile := fun _ => none }

/-- A filesystem model with one readable directory holding a thumbnail and a
text file but no JSON entry, and no readable files. -/
def fsNoJsonFixture : FSModel :=
  { readDir := fun d => if d = "/tmp" then some [ "thumb.png", "notes.txt"] else none,
    readFile := fun _ => none }

/-- A concrete base URL for feed runs. -/
def urlFixture : URL := { scheme := "http", host := "dummy" }

/-- A concrete enclosure profile: the mp3 target of the test configuration. -/
def encDOFixture : EnclosureDO :=
  { Format := { Name := "mp3", Ext := "mp3", MIMEType := "audio/mpeg" } }

/-- A concrete download request for feed runs. -/
def optionsFixture : DownloadOptions :=
  { BaseURL := some urlFixture,
    Format := { Name := "rss", EnclosureDownloadOptions := encDOFixture } }

/-- An eligible playlist child with a well-formed upload date. -/
def entryPlainA : Info :=
  { ID := "a1", WebpageURL := "https://x/a", UploadDate := "20240102", Entries := [] }

/-- A nested-playlist child, which feed synthesis must skip. -/
def entryNested : Info := { ID := "p1", TypeTag := "playlist", Entries := [] }

/-- An eligible playlist child without an upload date. -/
def entryPlainB : Info := { ID := "b1", WebpageURL := "https://x/b", Entries := [] }

/-- A child carrying the malformed date token of the specification example. -/
def entryBadDate : Info := { ID := "c1", UploadDate := "2024-13-99", Entries := [] }

/-- A playlist with two eligible children and one nested-playlist child. -/
def playlistFixture : Info :=
  { Title := "Kindred", TypeTag := "playlist", WebpageURL := "https://x/set",
    Entries := [ entryPlainA, entryNested, entryPlainB] }

/-- Every alias pair maps an uppercase letter to its lowercase partner: the
lowercase partners are outside the map domain and are neither spaces nor
dots, and the uppercase domain letters are neither spaces nor dots. -/
theorem asciiPairFacts : ∀ q ∈ asciiCasePairs,
    asciiCasePairs.find? (fun r => r.1 == q.2) = none ∧
    q.2 ≠ ' ' ∧ q.2 ≠ '.' ∧ q.1 ≠ ' ' ∧ q.1 ≠ '.' := by decide

theorem goLowerCharFixOfNone {ch : Char}
    (h : asciiCasePairs.find? (fun q => q.1 == ch) = none) : goLowerChar ch = ch := by
  unfold goLowerChar
  rw [h]

theorem goLowerCharEqOfSome {ch : Char} {q : Char × Char}
    (h : asciiCasePairs.find? (fun r => r.1 == ch) = some q) : goLowerChar ch = q.2 := by
  unfold goLowerChar
  rw [h]

theorem goLowerCharIdem (ch : Char) : goLowerChar (goLowerChar ch) = goLowerChar ch := by
  cases h : asciiCasePairs.find? (fun q => q.1 == ch) with
  | none => rw [goLowerCharFixOfNone h, goLowerCharFixOfNone h]
  | some q =>
    have hq := List.mem_of_find?_eq_some h
    rw [goLowerCharEqOfSome h, goLowerCharFixOfNone (asciiPairFacts q hq).1]

theorem goLowerCharSpaceIff (ch : Char) : goLowerChar ch = ' ' ↔ ch = ' ' := by
  cases h : asciiCasePairs.find? (fun q => q.1 == ch) with
  | none => rw [goLowerCharFixOfNone h]
  | some q =>
    have hq := List.mem_of_find?_eq_some h
    have h1 : q.1 = ch := by simpa using List.find?_some h
    rw [goLowerCharEqOfSome h]
    constructor
    · intro hs
      exact absurd hs (asciiPairFacts q hq).2.1
    · intro hs
      exact absurd (h1.trans hs) (asciiPairFacts q hq).2.2.2.1

theorem goLowerCharDotIff (ch : Char) : goLowerChar ch = '.' ↔ ch = '.' := by
  cases h : asciiCasePairs.find? (fun q => q.1 == ch) with
  | none => rw [goLowerCharFixOfNone h]
  | some q =>
    have hq := List.mem_of_find?_eq_some h
    have h1 : q.1 = ch := by simpa using List.find?_some h
    rw [goLowerCharEqOfSome h]
    constructor
    · intro hs
      exact absurd hs (asciiPairFacts q hq).2.2.1
    · intro hs
      exact absurd (h1.trans hs) (asciiPairFacts q hq).2.2.2.2

theorem goLowerCharBeqSpace (ch : Char) : (goLowerChar ch == ' ') = (ch == ' ') := by
  by_cases hc : ch = ' '
  · subst hc
    rfl
  · have h2 : ¬ goLowerChar ch = ' ' := fun hs => hc ((goLowerCharSpaceIff ch).mp hs)
    simp [hc, h2]

theorem goLowerCharBeqDot (ch : Char) : (goLowerChar ch == '.') = (ch == '.') := by
  by_cases hc : ch = '.'
  · subst hc
    rfl
  · have h2 : ¬ goLowerChar ch = '.' := fun hs => hc ((goLowerCharDotIff ch).mp hs)
    simp [hc, h2]

theorem dropWhileAllFalse {p : Char → Bool} {l : List Char}
    (h : ∀ x ∈ l, p x = false) : l.dropWhile p = l := by
  cases l with
  | nil => rfl
  | cons a t =>
    exact List.dropWhile_cons_of_neg (by simp [h a (List.mem_cons_self a t)])

theorem takeWhileAllTrue {p : Char → Bool} {l : List Char}
    (h : ∀ x ∈ l, p x = true) : l.takeWhile p = l := by
  induction l with
  | nil => rfl
  | cons a t ih =>
    rw [List.takeWhile_cons_of_pos (h a (List.mem_cons_self a t))]
    rw [ih (fun x hx => h x (List.mem_cons_of_mem a hx))]

theorem mapFixOfMemFix {f : Char → Char} {l : List Char}
    (h : ∀ x ∈ l, f x = x) : l.map f = l :=
  (List.map_congr_left h).trans (List.map_id l)

theorem trimCharsNoSpace {l : List Char} (h : ' ' ∉ l) : trimSpaceChars l = l := by
  unfold trimSpaceChars
  have h1 : ∀ x ∈ l, (x == ' ') = false := by
    intro x hx
    have hne : x ≠ ' ' := fun he => h (he ▸ hx)
    simp [hne]
  have h2 : ∀ x ∈ l.reverse, (x == ' ') = false := fun x hx => h1 x (List.mem_reverse.mp hx)
  rw [dropWhileAllFalse h1, dropWhileAllFalse h2, List.reverse_reverse]

theorem dropWhileSpaceMap (l : List Char) :
    (l.map goLowerChar).dropWhile (fun ch => ch == ' ')
      = (l.dropWhile (fun ch => ch == ' ')).map goLowerChar := by
  rw [List.dropWhile_map]
  have hp : ((fun ch => ch == ' ') ∘ goLowerChar) = (fun ch : Char => ch == ' ') := by
    funext ch
    exact goLowerCharBeqSpace ch
  rw [hp]

theorem trimCharsMap (l : List Char) :
    trimSpaceChars (l.map goLowerChar) = (trimSpaceChars l).map goLowerChar := by
  unfold trimSpaceChars
  rw [dropWhileSpaceMap, ← List.map_reverse, dropWhileSpaceMap, ← List.map_reverse]

theorem takeWhileDotMap (l : List Char) :
    (l.map goLowerChar).takeWhile (fun ch => !(ch == '.'))
      = (l.takeWhile (fun ch => !(ch == '.'))).map goLowerChar := by
  rw [List.takeWhile_map]
  have hp : ((fun ch => !(ch == '.')) ∘ goLowerChar) = (fun ch : Char => !(ch == '.')) := by
    funext ch
    show (!(goLowerChar ch == '.')) = !(ch == '.')
    rw [goLowerCharBeqDot]
  rw [hp]

/-- Reading normalizeCodecName through the derived core view. -/
theorem normViaCore (c : String) :
    normalizeCodecName c =
      (match codecNameNormalizeMap.find? (fun q => q.1 == normCore c) with
       | some q => q.2
       | none => normCore c) := rfl

/-- The four values of the alias map are fixpoints of normalizeCodecName. -/
theorem aliasValuesFixed : ∀ q ∈ codecNameNormalizeMap,
    normalizeCodecName q.2 = q.2 := by decide

theorem normCoreLower (c : String) : normCore (goToLower c) = normCore c := by
  unfold normCore goToLower
  show String.mk (((trimSpaceChars (c.data.map goLowerChar)).map goLowerChar).takeWhile
    (fun ch => !(ch == '.'))) = _
  rw [trimCharsMap, List.map_map]
  have hg : (goLowerChar ∘ goLowerChar) = goLowerChar := funext goLowerCharIdem
  rw [hg]

theorem trimCharsPad (l : List Char) :
    trimSpaceChars (' ' :: (l ++ [ ' '])) = trimSpaceChars l := by
  have h0 : List.dropWhile (fun ch => ch == ' ') (' ' :: (l ++ [ ' ']))
      = List.dropWhile (fun ch => ch == ' ') (l ++ [ ' ']) :=
    @List.dropWhile_cons_of_pos Char (fun ch => ch == ' ') ' ' (l ++ [ ' ']) rfl
  unfold trimSpaceChars
  rw [h0, List.dropWhile_append]
  by_cases he : (l.dropWhile (fun ch => ch == ' ')).isEmpty = true
  · rw [if_pos he]
    have h2 : l.dropWhile (fun ch => ch == ' ') = [] := List.isEmpty_iff.mp he
    rw [h2]
    rfl
  · rw [if_neg he]
    rw [List.reverse_append]
    have h1 : List.dropWhile (fun ch => ch == ' ')
        (' ' :: (l.dropWhile (fun ch => ch == ' ')).reverse)
        = List.dropWhile (fun ch => ch == ' ') (l.dropWhile (fun ch => ch == ' ')).reverse :=
      @List.dropWhile_cons_of_pos Char (fun ch => ch == ' ') ' '
        ((l.dropWhile (fun ch => ch == ' ')).reverse) rfl
    show (List.dropWhile (fun ch => ch == ' ')
      (' ' :: (l.dropWhile (fun ch => ch == ' ')).reverse)).reverse = _
    rw [h1]

/-- Surrounding a string by one space on each side does not change its
normalization. -/
theorem normPadSpaces (c : String) :
    normalizeCodecName ( " " ++ c ++ " ") = normalizeCodecName c := by
  have hdata : ( " " ++ c ++ " " : String).data = ' ' :: (c.data ++ [ ' ']) := rfl
  have hcore : normCore ( " " ++ c ++ " ") = normCore c := by
    unfold normCore
    rw [hdata, trimCharsPad]
  rw [normViaCore, normViaCore, hcore]

/-- Lowering the whole input first does not change its normalization. -/
theorem normLower (c : String) :
    normalizeCodecName (goToLower c) = normalizeCodecName c := by
  rw [normViaCore, normViaCore, normCoreLower]

/-- On inputs without any space character, normalization is idempotent. -/
theorem normIdemOfNoSpace (c : String) (h : ' ' ∉ c.data) :
    normalizeCodecName (normalizeCodecName c) = normalizeCodecName c := by
  have htrim : trimSpaceChars c.data = c.data := trimCharsNoSpace h
  have hcore : normCore c =
      String.mk ((c.data.map goLowerChar).takeWhile (fun ch => !(ch == '.'))) := by
    unfold normCore
    rw [htrim]
  set t := (c.data.map goLowerChar).takeWhile (fun ch => !(ch == '.')) with ht
  have hmemmap : ∀ x ∈ t, x ∈ c.data.map goLowerChar := fun x hx =>
    (List.takeWhile_prefix _).subset hx
  have hnospace : ' ' ∉ t := by
    intro hsp
    rcases List.mem_map.mp (hmemmap ' ' hsp) with ⟨a, ha, hax⟩
    exact h (((goLowerCharSpaceIff a).mp hax) ▸ ha)
  have hfix : ∀ x ∈ t, goLowerChar x = x := by
    intro x hx
    rcases List.mem_map.mp (hmemmap x hx) with ⟨a, ha, hax⟩
    rw [← hax, goLowerCharIdem]
  have hdot : ∀ x ∈ t, (!(x == '.')) = true := fun x hx =>
    @List.mem_takeWhile_imp Char (fun ch => !(ch == '.')) (c.data.map goLowerChar) x hx
  have hcoreT : normCore (String.mk t) = String.mk t := by
    unfold normCore
    show String.mk (((trimSpaceChars t).map goLowerChar).takeWhile (fun ch => !(ch == '.'))) = _
    rw [trimCharsNoSpace hnospace, mapFixOfMemFix hfix, takeWhileAllTrue hdot]
  cases hfind : codecNameNormalizeMap.find? (fun q => q.1 == String.mk t) with
  | some qq =>
    have hmem := List.mem_of_find?_eq_some hfind
    have h1 : normalizeCodecName c = qq.2 := by
      rw [normViaCore c, hcore, hfind]
    rw [h1]
    exact aliasValuesFixed qq hmem
  | none =>
    have h1 : normalizeCodecName c = String.mk t := by
      rw [normViaCore c, hcore, hfind]
    have h2 : normalizeCodecName (String.mk t) = String.mk t := by
      rw [normViaCore, hcoreT, hfind]
    rw [h1, h2]

/-- The alias lookup of the source equals the branch cascade the claim
describes, token by token. -/
theorem aliasLookupBranches (t : String) :
    (match codecNameNormalizeMap.find? (fun q => q.1 == t) with
     | some q => q.2
     | none => t)
    = (if t == "avc1" || t == "mp4v" then "h264"
       else if t == "mp4a" then "aac"
       else if t == "none" then "" else t) := by
  by_cases h1 : t = "none"
  · subst h1
    rfl
  by_cases h2 : t = "avc1"
  · subst h2
    rfl
  by_cases h3 : t = "mp4a"
  · subst h3
    rfl
  by_cases h4 : t = "mp4v"
  · subst h4
    rfl
  have hf : codecNameNormalizeMap.find? (fun q => q.1 == t) = none := by
    rw [List.find?_eq_none]
    intro x hx
    have hx4 : x = ( "none", "") ∨ x = ( "avc1", "h264") ∨
        x = ( "mp4a", "aac") ∨ x = ( "mp4v", "h264") := by
      simpa [codecNameNormalizeMap] using hx
    intro hbeq
    have hxt : x.1 = t := by simpa using hbeq
    rcases hx4 with h | h | h | h <;> subst h
    · exact h1 hxt.symm
    · exact h2 hxt.symm
    · exact h3 hxt.symm
    · exact h4 hxt.symm
  rw [hf]
  simp [h1, h2, h3, h4]

/-- Claim C3 counterexample: the source trims only space characters, not all
whitespace.  On the input tab-none the claim mandates the empty string (the
surrounding whitespace stripped, the token none mapped to empty), but
normalizeCodecName returns the input unchanged, tab included. -/
theorem claimC3counterexample :
    normalizeCodecName "\tnone" = "\tnone" ∧
    normalizeCodecNameClaimed "\tnone" = "" ∧
    normalizeCodecName "\tnone" ≠ normalizeCodecNameClaimed "\tnone" := by
  refine ⟨by decide, by decide, by decide⟩

/-- Claim C3 (amended): for every input string, normalizeCodecName strips
surrounding SPACE characters (not all whitespace), lower-cases, truncates at
the first dot separator, then maps the known vendor aliases (an AVC-family
tag to h264, the AAC tag mp4a to aac) and maps the literal token none to the
empty string; any other token is returned unchanged after trimming,
lower-casing and truncation. -/
theorem claimC3amended (c : String) :
    normalizeCodecName c = normalizeCodecNameSpacesClaim c :=
  (normViaCore c).trans (aliasLookupBranches (normCore c))

/-- Claim C4 counterexample: normalizeCodecName is not idempotent.  On the
input a-space-dot-b, truncation at the dot exposes a trailing space that the
first application keeps and a second application removes. -/
theorem claimC4counterexample :
    normalizeCodecName "a .b" = "a " ∧
    normalizeCodecName "a " = "a" ∧
    normalizeCodecName (normalizeCodecName "a .b") ≠ normalizeCodecName "a .b" := by
  refine ⟨by decide, by decide, by decide⟩

/-- Claim C4 (amended): codec normalization is idempotent on every input that
contains no space character (truncation can otherwise expose a trailing
space, as the counterexample shows); it is insensitive to ASCII letter case
and to surrounding space characters (not to all whitespace); and normalizing
a padded mixed-case AVC tag and normalizing the bare tag avc1 both yield
h264. -/
theorem claimC4amended :
    (∀ c : String, ' ' ∉ c.data →
      normalizeCodecName (normalizeCodecName c) = normalizeCodecName c)
    ∧ (∀ c : String, normalizeCodecName (goToLower c) = normalizeCodecName c)
    ∧ (∀ c : String, normalizeCodecName ( " " ++ c ++ " ") = normalizeCodecName c)
    ∧ normalizeCodecName "  AVC1.640028 " = "h264"
    ∧ normalizeCodecName "avc1" = "h264" :=
  ⟨normIdemOfNoSpace, normLower, normPadSpaces, by decide, by decide⟩

/-- Claim C4 witness: the amended idempotence applied at a concrete dot-bearing
space-free input. -/
theorem claimC4witness :
    normalizeCodecName (normalizeCodecName "mp4a.40.2") = normalizeCodecName "mp4a.40.2" :=
  claimC4amended.1 "mp4a.40.2" (by decide)


/-- Claim C5: for every format processed by parseInfo, an empty raw audio
(respectively video) codec field makes the normalized codec come from the
fixed extension table, while a non-empty raw field makes it
normalizeCodecName of that field, even when that normalization is empty; the
table sends mp3 to audio mp3 with no video, mp4 and flv to aac with h264,
and any other extension to empty codecs for both kinds. -/
theorem claimC5extFallback :
    (∀ f : Format,
      (f.ACodec = "" → (normalizeFormat f).NormACodec = (codecFromExt f.Ext).1) ∧
      (f.VCodec = "" → (normalizeFormat f).NormVCodec = (codecFromExt f.Ext).2) ∧
      (f.ACodec ≠ "" → (normalizeFormat f).NormACodec = normalizeCodecName f.ACodec) ∧
      (f.VCodec ≠ "" → (normalizeFormat f).NormVCodec = normalizeCodecName f.VCodec))
    ∧ codecFromExt "mp3" = ( "mp3", "")
    ∧ codecFromExt "mp4" = ( "aac", "h264")
    ∧ codecFromExt "flv" = ( "aac", "h264")
    ∧ (∀ e : String, goToLower e ≠ "mp3" → goToLower e ≠ "mp4" → goToLower e ≠ "flv" →
        codecFromExt e = ( "", "")) := by
  refine ⟨fun f => ⟨?_, ?_, ?_, ?_⟩, by decide, by decide, by decide, ?_⟩
  · intro ha
    unfold normalizeFormat
    by_cases hv : f.VCodec = "" <;> by_cases ht : f.TBR = 0 <;> simp [ha, hv, ht]
  · intro hv
    unfold normalizeFormat
    by_cases ha : f.ACodec = "" <;> by_cases ht : f.TBR = 0 <;> simp [ha, hv, ht]
  · intro ha
    unfold normalizeFormat
    by_cases hv : f.VCodec = "" <;> by_cases ht : f.TBR = 0 <;> simp [ha, hv, ht]
  · intro hv
    unfold normalizeFormat
    by_cases ha : f.ACodec = "" <;> by_cases ht : f.TBR = 0 <;> simp [ha, hv, ht]
  · intro e h3 h4 h5
    unfold codecFromExt
    simp [h3, h4, h5]

/-- Claim C5 witness: the amended-free conjuncts applied at a concrete format
with an empty audio codec field and an mp3 container. -/
theorem claimC5witness :
    (normalizeFormat { ACodec := "", Ext := "mp3" }).NormACodec
      = (codecFromExt "mp3").1 :=
  (claimC5extFallback.1 { ACodec := "", Ext := "mp3" }).1 rfl

/-- Claim C6: every byte sequence parseInfo accepts is retained verbatim as
the rawJSON blob of the produced Info, and re-parsing the retained blob
yields the identical Info, derived format fields included (the standard
library JSON decoding is a deterministic function, modelled by the decode
argument). -/
theorem claimC6roundTrip (decode : String → Option Info) (bytes : String) (i : Info)
    (h : parseInfo decode bytes = Except.ok i) :
    i.rawJSON = bytes ∧ parseInfo decode i.rawJSON = Except.ok i := by
  unfold parseInfo at h
  cases hd : decode bytes with
  | none =>
    rw [hd] at h
    exact absurd h (by simp)
  | some i0 =>
    rw [hd] at h
    injection h with hi
    constructor
    · rw [← hi]
    · rw [← hi]
      show parseInfo decode bytes = _
      unfold parseInfo
      rw [hd]

/-- Claim C6 witness: the round trip applied to the concrete decode fixture
and the byte string x. -/
theorem claimC6witness :
    infoFixture.rawJSON = "x" ∧
    parseInfo decodeFixture infoFixture.rawJSON = Except.ok infoFixture :=
  claimC6roundTrip decodeFixture "x" infoFixture (by rfl)

/-- Claim C9: the extraction-tool command line NewFromURL builds is identical
for every target URL; the URL reaches the tool only through the bytes
written to the process input stream, never through the argument list. -/
theorem claimC9argsIndependent :
    (∀ u v : String,
      (newFromURLInvocation u).program = (newFromURLInvocation v).program ∧
      (newFromURLInvocation u).args = (newFromURLInvocation v).args)
    ∧ (∀ u : String, (newFromURLInvocation u).stdinBytes = u ++ "\n") :=
  ⟨fun _ _ => ⟨rfl, rfl⟩, fun _ => rfl⟩

/-- Claim C7 counterexample: the first marked diagnostic line is not surfaced
verbatim: the source slices the recognized marker off, so the line reading
ERROR colon space boom surfaces as the message boom, not as the whole
line. -/
theorem claimC7counterexample :
    newFromURLOutcome fsEmptyFixture decodeFixture "/tmp" [ "ERROR: boom"] true
      = Except.error (Err.extractionErr "boom")
    ∧ Err.extractionErr "boom" ≠ Err.extractionErr "ERROR: boom" :=
  ⟨rfl, by decide⟩

/-- Claim C7 (amended): NewFromURL scans the diagnostic stream line by line
and, on the first line beginning with the recognized marker, returns that
line with the marker removed as an extraction error, short-circuiting before
waiting on tool exit (the outcome ignores the wait result); lines without
the marker never produce an error from the scan. -/
theorem claimC7amended :
    (∀ (fs : FSModel) (decode : String → Option Info) (tempPath : String)
       (pre : List String) (line : String) (post : List String) (waitOk : Bool),
      (∀ l ∈ pre, goHasPrefixChars errorLineMark.data l.data = false) →
      goHasPrefixChars errorLineMark.data line.data = true →
      newFromURLOutcome fs decode tempPath (pre ++ line :: post) waitOk
        = Except.error (Err.extractionErr
            (String.mk (line.data.drop errorLineMark.data.length))))
    ∧ (∀ lines : List String,
        (∀ l ∈ lines, goHasPrefixChars errorLineMark.data l.data = false) →
        scanStderr lines = none) := by
  have hscan : ∀ lines : List String,
      (∀ l ∈ lines, goHasPrefixChars errorLineMark.data l.data = false) →
      scanStderr lines = none := by
    intro lines
    induction lines with
    | nil =>
      intro _
      rfl
    | cons a t ih =>
      intro h
      unfold scanStderr
      rw [h a (List.mem_cons_self a t)]
      rw [if_neg (by decide : ¬(false = true))]
      exact ih (fun x hx => h x (List.mem_cons_of_mem a hx))
  refine ⟨?_, hscan⟩
  intro fs decode tempPath pre line post waitOk hpre hline
  have hfound : ∀ pre2 : List String,
      (∀ l ∈ pre2, goHasPrefixChars errorLineMark.data l.data = false) →
      scanStderr (pre2 ++ line :: post)
        = some (String.mk (line.data.drop errorLineMark.data.length)) := by
    intro pre2
    induction pre2 with
    | nil =>
      intro _
      show scanStderr (line :: post) = _
      unfold scanStderr
      rw [hline]
      rw [if_pos rfl]
    | cons a t ih =>
      intro h
      show scanStderr (a :: (t ++ line :: post)) = _
      unfold scanStderr
      rw [h a (List.mem_cons_self a t)]
      rw [if_neg (by decide : ¬(false = true))]
      exact ih (fun x hx => h x (List.mem_cons_of_mem a hx))
  unfold newFromURLOutcome
  rw [hfound pre hpre]

/-- Claim C7 witness: the amended statement applied to one unmarked line
followed by a marked line, with a failing wait result. -/
theorem claimC7witness :
    newFromURLOutcome fsEmptyFixture decodeFixture "/tmp"
        [ "info line", "ERROR: boom"] false
      = Except.error (Err.extractionErr
          (String.mk ( "ERROR: boom".data.drop errorLineMark.data.length))) :=
  claimC7amended.1 fsEmptyFixture decodeFixture "/tmp" [ "info line"] "ERROR: boom" [] false
    (by decide) (by decide)

/-- With no JSON entry among the names, the directory scan leaves the located
info JSON path at its initial value. -/
theorem scanDirNoJson (dir : String) :
    ∀ (names : List String) (acc : String × String),
      (∀ n ∈ names, goPathExt n ≠ ".json") →
      (names.foldl (scanDirStep dir) acc).1 = acc.1 := by
  intro names
  induction names with
  | nil =>
    intro acc _
    rfl
  | cons a t ih =>
    intro acc h
    show (t.foldl (scanDirStep dir) (scanDirStep dir acc a)).1 = acc.1
    rw [ih (scanDirStep dir acc a) (fun x hx => h x (List.mem_cons_of_mem a hx))]
    unfold scanDirStep
    have hj : ¬(goPathExt a == ".json") = true := by
      simp [h a (List.mem_cons_self a t)]
    rw [if_neg hj]
    by_cases hi : (goPathExt a == ".png" || goPathExt a == ".jpg" || goPathExt a == ".jpeg") = true
    · rw [if_pos hi]
    · rw [if_neg hi]

/-- Claim C10: when the directory handed to NewFromPath is readable but holds
no name ending in json, NewFromPath always returns an error and never a
success, even though its emptiness guard tests the directory path argument
rather than the located JSON file path: with nothing located, either the
guard fires on an empty directory argument, or the open of the empty located
path fails. -/
theorem claimC10noJson (fs : FSModel) (decode : String → Option Info)
    (dir : String) (names : List String)
    (hopen : fs.readFile "" = none)
    (hdir : fs.readDir dir = some names)
    (hnojson : ∀ n ∈ names, goPathExt n ≠ ".json") :
    ∃ e, NewFromPath fs decode dir = Except.error e := by
  have hloc : (names.foldl (scanDirStep dir) ( "", "")).1 = "" :=
    scanDirNoJson dir names ( "", "") hnojson
  by_cases hd : dir = ""
  · refine ⟨Err.noInfoJSON, ?_⟩
    unfold NewFromPath
    rw [hdir]
    simp [hd]
  · refine ⟨Err.openErr, ?_⟩
    simp [NewFromPath, hdir, hloc, hopen, hd]

/-- Claim C10 witness: the statement applied to the concrete no-JSON
filesystem fixture. -/
theorem claimC10witness :
    ∃ e, NewFromPath fsNoJsonFixture decodeFixture "/tmp" = Except.error e :=
  claimC10noJson fsNoJsonFixture decodeFixture "/tmp" [ "thumb.png", "notes.txt"]
    rfl rfl (by decide)

theorem strAppendNeEmpty (x y : String) (hy : y.data ≠ []) : x ++ y ≠ "" := by
  intro h
  have h2 : x.data ++ y.data = [] := congrArg String.data h
  exact hy (List.append_eq_nil.mp h2).2

/-- The fixed timestamp rendering is never the empty string. -/
theorem formatNeverEmpty (y m d : Nat) : formatRFC1123Z y m d ≠ "" := by
  unfold formatRFC1123Z
  exact strAppendNeEmpty _ _ (by decide)

/-- The publish date of an item is non-empty exactly when the token is
non-empty and parses as an eight-digit date. -/
theorem pubDatePresentIff (tok : String) :
    pubDateForToken tok ≠ "" ↔ (tok ≠ "" ∧ (parseYMD8 tok).isSome = true) := by
  by_cases htok : tok = ""
  · subst htok
    simp [pubDateForToken]
  · cases hp : parseYMD8 tok with
    | none => simp [pubDateForToken, htok, hp]
    | some ymd =>
      rcases ymd with ⟨y, m, d⟩
      simp [pubDateForToken, htok, hp, formatNeverEmpty y m d]

/-- When the token parses, the publish date is its rendering in the fixed
timestamp format. -/
theorem pubDateRendered (tok : String) (y m d : Nat)
    (hp : parseYMD8 tok = some (y, m, d)) :
    pubDateForToken tok = formatRFC1123Z y m d := by
  have htok : tok ≠ "" := by
    intro he
    subst he
    rw [show parseYMD8 "" = none from rfl] at hp
    exact Option.noConfusion hp
  simp [pubDateForToken, htok, hp]

/-- Claim C8: a feed item carries a publish date exactly when the child's
upload-date token is non-empty and parses as an eight-digit year month day
date with no separators, in which case it is rendered in the fixed textual
timestamp format; an absent or malformed token such as the thirteenth-month
example yields an item with an empty publish date, never an error and never
a default date. -/
theorem claimC8pubDate :
    (∀ (encDO : EnclosureDO) (baseURL feedURL : URL) (entry : Info),
      ((mkFeedItem encDO baseURL feedURL entry).PubDate ≠ "" ↔
        (entry.UploadDate ≠ "" ∧ (parseYMD8 entry.UploadDate).isSome = true))
      ∧ (∀ y m d : Nat, parseYMD8 entry.UploadDate = some (y, m, d) →
          (mkFeedItem encDO baseURL feedURL entry).PubDate = formatRFC1123Z y m d))
    ∧ (mkFeedItem encDOFixture urlFixture urlFixture entryBadDate).PubDate = "" := by
  refine ⟨fun encDO baseURL feedURL entry => ⟨?_, ?_⟩, ?_⟩
  · show pubDateForToken entry.UploadDate ≠ "" ↔ _
    exact pubDatePresentIff entry.UploadDate
  · intro y m d hp
    show pubDateForToken entry.UploadDate = _
    exact pubDateRendered entry.UploadDate y m d hp
  · rfl

/-- Claim C8 witness: the rendering clause applied to a child with the
well-formed date token of early January twenty twenty-four. -/
theorem claimC8witness :
    (mkFeedItem encDOFixture urlFixture urlFixture entryPlainA).PubDate
      = formatRFC1123Z 2024 1 2 :=
  (claimC8pubDate.1 encDOFixture urlFixture urlFixture entryPlainA).2 2024 1 2 (by decide)

/-- The item loop equals a filter of the eligible children followed by the
item construction, child by child. -/
theorem itemsForEntriesEq (encDO : EnclosureDO) (baseURL feedURL : URL)
    (es : List Info) :
    itemsForEntries encDO baseURL feedURL es
      = (es.filter
          (fun e => !(e.TypeTag == "playlist" || e.TypeTag == "multi_video"))).map
          (mkFeedItem encDO baseURL feedURL) := by
  induction es with
  | nil => rfl
  | cons e t ih =>
    unfold itemsForEntries
    by_cases he : (e.TypeTag == "playlist" || e.TypeTag == "multi_video") = true
    · rw [if_pos he]
      rw [List.filter_cons_of_neg (by simp [he])]
      exact ih
    · rw [if_neg he]
      rw [List.filter_cons_of_pos (by simp [he])]
      rw [List.map_cons, ih]

/-- Claim C2: for a playlist-type metadata value, feed synthesis emits
exactly one item per child entry whose type tag does not mark it as a nested
playlist (playlist or multi video), in child order; nested-playlist children
are excluded regardless of any limit; and with a positive item limit the
capped feed carries the first item-limit of those items, hence at most
item-limit items. -/
theorem claimC2feedItems (options : DownloadOptions) (info : Info)
    (linkIconRawURL : String) (itemLimit : Int)
    (_hplaylist : info.TypeTag = "playlist") :
    ((RSSFromYDLSInfo options info linkIconRawURL).Channel.Items
      = (info.Entries.filter
          (fun e => !(e.TypeTag == "playlist" || e.TypeTag == "multi_video"))).map
          (mkFeedItem options.Format.EnclosureDownloadOptions (baseURLOf options)
            (feedURLOf options info)))
    ∧ (0 < itemLimit →
        (buildFeed options info linkIconRawURL itemLimit).Channel.Items
          = ((info.Entries.filter
              (fun e => !(e.TypeTag == "playlist" || e.TypeTag == "multi_video"))).map
              (mkFeedItem options.Format.EnclosureDownloadOptions (baseURLOf options)
                (feedURLOf options info))).take itemLimit.toNat)
    ∧ (0 < itemLimit →
        (buildFeed options info linkIconRawURL itemLimit).Channel.Items.length
          ≤ itemLimit.toNat) := by
  have hitems : (RSSFromYDLSInfo options info linkIconRawURL).Channel.Items
      = itemsForEntries options.Format.EnclosureDownloadOptions (baseURLOf options)
          (feedURLOf options info) info.Entries := rfl
  have h1 := hitems.trans (itemsForEntriesEq options.Format.EnclosureDownloadOptions
    (baseURLOf options) (feedURLOf options info) info.Entries)
  have h2 : ∀ hp : 0 < itemLimit,
      (buildFeed options info linkIconRawURL itemLimit).Channel.Items
        = ((RSSFromYDLSInfo options info linkIconRawURL).Channel.Items).take
            itemLimit.toNat := by
    intro hp
    unfold buildFeed
    rw [if_pos hp]
  refine ⟨h1, fun hp => ?_, fun hp => ?_⟩
  · rw [h2 hp, h1]
  · rw [h2 hp]
    exact List.length_take_le itemLimit.toNat _

/-- Claim C2 witness: the item equation applied to the concrete playlist with
two eligible children and one nested-playlist child. -/
theorem claimC2witness :
    (RSSFromYDLSInfo optionsFixture playlistFixture "").Channel.Items
      = (playlistFixture.Entries.filter
          (fun e => !(e.TypeTag == "playlist" || e.TypeTag == "multi_video"))).map
          (mkFeedItem optionsFixture.Format.EnclosureDownloadOptions
            (baseURLOf optionsFixture) (feedURLOf optionsFixture playlistFixture)) :=
  (claimC2feedItems optionsFixture playlistFixture "" 2 rfl).1

/-- Claim C1: with a non-empty ordered preference list, the negotiator
examines preferences outermost and candidates innermost: whenever no
candidate matches any preference listed before a codec c and some candidate
matches c, selection returns the first candidate in candidate order matching
c, so preference order dominates candidate order; on the catalog of five
candidates with bitrates one to five, requesting audio codec opus returns
the opus candidate with format id five even though lower-bitrate candidates
appear earlier in the list. -/
theorem claimC1preferenceMajor :
    (∀ (formats : List Format) (mt : MediaType) (cs1 : List String) (c : String)
       (cs2 : List String),
      (∀ c2 ∈ cs1, ∀ g ∈ formats, codecMatches g mt c2 = false) →
      (∃ f ∈ formats, codecMatches f mt c = true) →
      findYDLFormat formats mt (cs1 ++ c :: cs2)
        = formats.find? (fun f => codecMatches f mt c))
    ∧ ((findYDLFormat ydlTestCatalog MediaType.audioKind [ "opus"]).map
        (fun f => (f.FormatID, f.NormACodec))) = some ( "5", "opus") := by
  refine ⟨?_, by rfl⟩
  intro formats mt cs1 c cs2 hnone hsome
  have hfy : findYDLFormat formats mt (cs1 ++ c :: cs2)
      = findPreferred formats mt (cs1 ++ c :: cs2) := by
    cases hcs : cs1 ++ c :: cs2 with
    | nil => exact absurd hcs (by simp)
    | cons x xs => rfl
  rw [hfy]
  have haux : ∀ pre : List String,
      (∀ c2 ∈ pre, ∀ g ∈ formats, codecMatches g mt c2 = false) →
      findPreferred formats mt (pre ++ c :: cs2)
        = formats.find? (fun f => codecMatches f mt c) := by
    intro pre
    induction pre with
    | nil =>
      intro _
      show findPreferred formats mt (c :: cs2) = _
      unfold findPreferred
      rcases hsome with ⟨f, hf, hm⟩
      have hiss : (formats.find? (fun f => codecMatches f mt c)).isSome = true :=
        List.find?_isSome.mpr ⟨f, hf, hm⟩
      cases hfind : formats.find? (fun f => codecMatches f mt c) with
      | none =>
        rw [hfind] at hiss
        exact absurd hiss (by decide)
      | some r => rfl
    | cons a t ih =>
      intro h
      show findPreferred formats mt (a :: (t ++ c :: cs2)) = _
      unfold findPreferred
      have hfa : formats.find? (fun f => codecMatches f mt a) = none := by
        rw [List.find?_eq_none]
        intro x hx
        simp [h a (List.mem_cons_self a t) x hx]
      rw [hfa]
      exact ih (fun c2 hc2 => h c2 (List.mem_cons_of_mem a hc2))
  exact haux cs1 hnone

/-- Claim C1 witness: the preference-major clause applied to the catalog with
an unmatched first preference followed by opus. -/
theorem claimC1witness :
    findYDLFormat ydlTestCatalog MediaType.audioKind [ "flac", "opus"]
      = ydlTestCatalog.find? (fun f => codecMatches f MediaType.audioKind "opus") :=
  claimC1preferenceMajor.1 ydlTestCatalog MediaType.audioKind [ "flac"] "opus" []
    (by decide) (by decide)
